import Mathlib

/-!
Verification of the blobs animation engine (src/blobs.js).

The JavaScript source is shallowly embedded below.  Numbers are modelled as
exact rationals (`ℚ`) except for the trigonometric blob/flock operations,
which live over `ℝ`.  Each definition is a direct transcription of the
corresponding source function; the theorems at the end of the file settle
the specification claims against these definitions.
-/

/-- JavaScript `Math.round` for the non-negative arguments used by the colour
converter: round half-up, i.e. `⌊x + 1/2⌋`. -/
def jsRound (x : ℚ) : ℤ := ⌊x + 1 / 2⌋

/-- The sector `switch (i)` of `hsvToRgb` (src/blobs.js lines 44-79): cases
`0`..`4`, with case `5` folded into the `default` branch exactly as in the
source. -/
def hsvSector (i : ℤ) (v t p q : ℚ) : ℚ × ℚ × ℚ :=
  if i = 0 then (v, t, p)
  else if i = 1 then (q, v, p)
  else if i = 2 then (p, v, t)
  else if i = 3 then (p, q, v)
  else if i = 4 then (t, p, v)
  else (v, p, q)

/-- Function `hsvToRgb(h, s, v)` from src/blobs.js lines 10-86.  Inputs are clamped to
`[0,360] × [0,100] × [0,100]`, saturation and value are rescaled to `[0,1]`,
an achromatic short-circuit handles `s = 0`, and otherwise the hue sector
logic selects the channels, each rounded independently. -/
def hsvToRgb (h s v : ℚ) : ℤ × ℤ × ℤ :=
  let h1 := max 0 (min 360 h)
  let s1 := max 0 (min 100 s)
  let v1 := max 0 (min 100 v)
  let s2 := s1 / 100
  let v2 := v1 / 100
  if s2 = 0 then
    (jsRound (v2 * 255), jsRound (v2 * 255), jsRound (v2 * 255))
  else
    let h2 := h1 / 60
    let i : ℤ := ⌊h2⌋
    let f := h2 - (i : ℚ)
    let p := v2 * (1 - s2)
    let q := v2 * (1 - s2 * f)
    let t := v2 * (1 - s2 * (1 - f))
    let rgb := hsvSector i v2 t p q
    (jsRound (rgb.1 * 255), jsRound (rgb.2.1 * 255), jsRound (rgb.2.2 * 255))

/-- The `LFO` object (src/blobs.js lines 100-140): construction parameters
together with the closure-captured mutable state `value` and `direction`. -/
structure LFO where
  minValue : ℚ
  maxValue : ℚ
  speed : ℚ
  loopRound : Bool
  value : ℚ
  direction : ℚ
deriving DecidableEq

/-- Constructor `new LFO(minValue, maxValue, speed, _, loopRound)`: the value starts at
the midpoint of the bounds and the direction at `+1`. -/
def LFO.new (minValue maxValue speed : ℚ) (loopRound : Bool) : LFO :=
  ⟨minValue, maxValue, speed, loopRound, (minValue + maxValue) / 2, 1⟩

/-- The min-bound block of `LFO.update` (src/blobs.js lines 129-136), applied
to the value `v` and direction `d` left by the max-bound block: if the value
has fallen below `minValue`, flip the direction and reflect the overshoot. -/
def lfoMinCheck (l : LFO) (v d : ℚ) : LFO :=
  if v < l.minValue then
    { l with value := l.minValue + (l.minValue - v), direction := d * (-1) }
  else
    { l with value := v, direction := d }

/-- Method `LFO.update(dt)` (src/blobs.js lines 109-139): advance the value by
`speed · dt · direction`, run the max-bound check (wrap or bounce), and then
the unconditional min-bound block `lfoMinCheck`.  The callback receives the
resulting `value` field. -/
def LFO.update (l : LFO) (dt : ℚ) : LFO :=
  let v1 := l.value + l.speed * dt * l.direction
  if v1 > l.maxValue then
    if l.loopRound then lfoMinCheck l (l.minValue + (v1 - l.maxValue)) l.direction
    else lfoMinCheck l (l.maxValue - (v1 - l.maxValue)) (l.direction * (-1))
  else lfoMinCheck l v1 l.direction

/-- The symbolic key names used by `KEY_NAMES` (src/blobs.js lines 861-875). -/
inductive KeyName where
  | pause
  | randomise
  | center
  | slow
  | wavy
  | settings
  | toggleClear
  | help
  | toggleSymmetry
  | reverse
  | randomiseSpeed
  | startMacro
  | esc
deriving DecidableEq

/-- Map `KEY_NAMES` from symbolic key names to raw key codes
(src/blobs.js lines 861-875). -/
def KEY_NAMES : KeyName → ℕ
  | .pause => 16
  | .randomise => 82
  | .center => 67
  | .slow => 83
  | .wavy => 87
  | .settings => 79
  | .toggleClear => 75
  | .help => 72
  | .toggleSymmetry => 89
  | .reverse => 86
  | .randomiseSpeed => 81
  | .startMacro => 77
  | .esc => 27

/-- The `type` tag of a recorded/replayed move. -/
inductive MoveType where
  | keyup
  | keydown
  | click
deriving DecidableEq

/-- One element of a `moves` array: an object with a `time` (seconds), a
`type`, and a `key` or `coords` field depending on the type
(src/blobs.js lines 146-148). -/
structure Move where
  time : ℚ
  type : MoveType
  key : Option KeyName
  coords : Option (ℚ × ℚ)
deriving DecidableEq

/-- The `Macro` object's state (src/blobs.js lines 150-197): the `moves`
array, the closure variables `position` (elapsed time) and `startIndex`
(replay cursor), and the `started` flag. -/
structure MacroState where
  moves : List Move
  startIndex : ℕ
  position : ℚ
  started : Bool
deriving DecidableEq

/-- Constructor `new Macro(moves)`: `position = 0`, `started = false`. -/
def MacroState.new (moves : List Move) : MacroState := ⟨moves, 0, 0, false⟩

/-- Method `Macro.start()` (src/blobs.js lines 159-163). -/
def MacroState.start (s : MacroState) : MacroState :=
  { s with startIndex := 0, position := 0, started := true }

/-- The `for` loop of `Macro.update` (src/blobs.js lines 166-193), iterating
over `moves[startIndex..]`.  Each move whose `time` is strictly less than
`position` is fired and `startIndex` is incremented; when `startIndex`
reaches `moves.length` the `started` flag is cleared.  The body of the
firing `switch` dispatches into the global world (pressed-key bookkeeping,
`handleKeypress`, `handleClick`), which is threaded through here as an
abstract world `W` acted on by `fire`. -/
def scanMoves {W : Type} (fire : Move → W → W) (total : ℕ) (pos : ℚ) :
    List Move → ℕ → Bool → W → ℕ × Bool × W
  | [], si, st, w => (si, st, w)
  | m :: rest, si, st, w =>
    if m.time < pos then
      scanMoves fire total pos rest (si + 1)
        (if si + 1 = total then false else st) (fire m w)
    else
      scanMoves fire total pos rest si st w

/-- Method `Macro.update(dt)` (src/blobs.js lines 165-196): run the firing loop
against the current `position`, then `position += dt`. -/
def MacroState.update {W : Type} (fire : Move → W → W) (s : MacroState) (w : W)
    (dt : ℚ) : MacroState × W :=
  let r := scanMoves fire s.moves.length s.position (s.moves.drop s.startIndex)
    s.startIndex s.started w
  ({ s with startIndex := r.1, started := r.2.1, position := s.position + dt }, r.2.2)

/-- Record each fired move, in firing order: the observable used to state
which events a tick fires. -/
def collectFired : Move → List Move → List Move := fun m w => w ++ [m]

/-- One `Macro.update` tick, reporting the list of moves fired in that tick. -/
def stepFired (s : MacroState) (dt : ℚ) : MacroState × List Move :=
  MacroState.update collectFired s [] dt

/-- Iterate `Macro.update` over a list of tick deltas, collecting the list of
moves fired by each tick. -/
def runTrace : MacroState → List ℚ → MacroState × List (List Move)
  | s, [] => (s, [])
  | s, dt :: rest =>
    let r := stepFired s dt
    let r' := runTrace r.1 rest
    (r'.1, r.2 :: r'.2)

/-- The `MacroRecording` object (src/blobs.js lines 203-237): the `moves`
array under construction and the lazily-initialised `startTime`.  Wall-clock
instants (`Date.now()`, in milliseconds) are passed in explicitly. -/
structure MacroRecording where
  moves : List Move
  startTime : Option ℚ
deriving DecidableEq

/-- Constructor `new MacroRecording()`. -/
def MacroRecording.new : MacroRecording := ⟨[], none⟩

/-- Helper `getTime()` (src/blobs.js lines 213-220): on the first call record the
current instant and return `0`; afterwards return seconds elapsed since that
first instant.  Returns the computed time together with the updated state. -/
def MacroRecording.getTime (s : MacroRecording) (now : ℚ) : ℚ × MacroRecording :=
  match s.startTime with
  | none => (0, { s with startTime := some now })
  | some t0 => ((now - t0) / 1000, s)

/-- Method `MacroRecording.addClick(x, y)` (src/blobs.js lines 222-228). -/
def MacroRecording.addClick (s : MacroRecording) (now x y : ℚ) : MacroRecording :=
  let r := s.getTime now
  { r.2 with moves := r.2.moves ++ [⟨r.1, MoveType.click, none, some (x, y)⟩] }

/-- Method `MacroRecording.addKeyEvent(keyName, type)` (src/blobs.js lines 230-236). -/
def MacroRecording.addKeyEvent (s : MacroRecording) (now : ℚ) (keyName : KeyName)
    (type : MoveType) : MacroRecording :=
  let r := s.getTime now
  { r.2 with moves := r.2.moves ++ [⟨r.1, type, some keyName, none⟩] }

/-- The canvas click listener's recording step (src/blobs.js lines 847-859):
a click at pixel `(x, y)` on a `width × height` surface is stored as
percentage coordinates `(100·x/width, 100·y/height)`. -/
def recordClick (s : MacroRecording) (now x y width height : ℚ) : MacroRecording :=
  s.addClick now (100 * x / width) (100 * y / height)

/-- One live-input event delivered to the recorder. -/
inductive RecordEvent where
  | click (x y : ℚ)
  | keyEvent (keyName : KeyName) (type : MoveType)
deriving DecidableEq

/-- Deliver one timestamped live-input event to the recorder. -/
def MacroRecording.deliver (s : MacroRecording) (e : ℚ × RecordEvent) : MacroRecording :=
  match e.2 with
  | .click x y => s.addClick e.1 x y
  | .keyEvent k t => s.addKeyEvent e.1 k t

/-- Deliver a sequence of timestamped live-input events to the recorder. -/
def recordAll (s : MacroRecording) (evs : List (ℚ × RecordEvent)) : MacroRecording :=
  evs.foldl MacroRecording.deliver s

/-- A `Blob` object's data fields (src/blobs.js lines 269-281).  The colour
payload is the owned HSV triple; its cached RGB string is a derived value and
not needed by any claim, so the triple stands for the whole `Colour`. -/
structure Blob where
  x : ℝ
  y : ℝ
  bearing : ℝ
  bearingShift : ℝ
  extraSpeed : ℝ
  colour : ℚ × ℚ × ℚ

/-- JavaScript `Math.atan2(y, x)` over the reals: the angle of the point
`(x, y)`, in `(-π, π]`, with `atan2(0, 0) = 0`. -/
noncomputable def jsAtan2 (y x : ℝ) : ℝ :=
  if 0 < x then Real.arctan (y / x)
  else if x < 0 then
    if 0 ≤ y then Real.arctan (y / x) + Real.pi
    else Real.arctan (y / x) - Real.pi
  else
    if 0 < y then Real.pi / 2
    else if y < 0 then -(Real.pi / 2)
    else 0

/-- Function `attractBlobs(blobs, x, y)` (src/blobs.js lines 339-345): point every
blob's bearing at `(x, y)` via `Math.atan2(x - blob.x, -(y - blob.y))`. -/
noncomputable def attractBlobs (blobs : List Blob) (x y : ℝ) : List Blob :=
  blobs.map fun b => { b with bearing := jsAtan2 (x - b.x) (-(y - b.y)) }

/-- Function `moveBlobs(blobs, x, y)` (src/blobs.js lines 350-355): teleport every
blob to `(x, y)`. -/
def moveBlobs (blobs : List Blob) (x y : ℝ) : List Blob :=
  blobs.map fun b => { b with x := x, y := y }

/-- Function `handleClick(x, y)` (src/blobs.js lines 361-368): teleport if the pause
key is held, otherwise attract.  `pressed` is the key-code set `pressedKeys`. -/
noncomputable def handleClick (pressed : List ℕ) (blobs : List Blob) (x y : ℝ) :
    List Blob :=
  if KEY_NAMES KeyName.pause ∈ pressed then moveBlobs blobs x y
  else attractBlobs blobs x y

/-- Sample move scheduled at time 0 (cf. the `test` entry of `macros`). -/
def moveA : Move := ⟨0, MoveType.keydown, some KeyName.pause, none⟩

/-- Sample move scheduled at time 1. -/
def moveB : Move := ⟨1, MoveType.keydown, some KeyName.center, none⟩

/-- Sample move scheduled at time 2. -/
def moveC : Move := ⟨2, MoveType.click, none, some (10, 20)⟩

/-- Six ticks of `dt = 0.5`. -/
def halfTicks : List ℚ := [1/2, 1/2, 1/2, 1/2, 1/2, 1/2]

/-- A sample blob sitting at the origin with bearing `0`. -/
def blobO : Blob := ⟨0, 0, 0, 0, 0, (120, 50, 50)⟩


/-! ## Oscillator theorems -/

/-- The min-bound block `lfoMinCheck` never changes the construction parameters. -/
theorem lfoMinCheck_params (l : LFO) (v d : ℚ) :
    (lfoMinCheck l v d).minValue = l.minValue ∧
    (lfoMinCheck l v d).maxValue = l.maxValue ∧
    (lfoMinCheck l v d).speed = l.speed ∧
    (lfoMinCheck l v d).loopRound = l.loopRound := by
  unfold lfoMinCheck
  split_ifs <;> exact ⟨rfl, rfl, rfl, rfl⟩

/-- An `LFO.update` step never changes the construction parameters. -/
theorem LFO.update_params (l : LFO) (dt : ℚ) :
    (l.update dt).minValue = l.minValue ∧ (l.update dt).maxValue = l.maxValue ∧
    (l.update dt).speed = l.speed ∧ (l.update dt).loopRound = l.loopRound := by
  simp only [LFO.update]
  split_ifs <;> exact lfoMinCheck_params ..

/-- If the incoming value is at most `maxValue` and undershoots `minValue` by
at most the bounds' range, the min-bound block leaves the value in range. -/
theorem lfoMinCheck_value (l : LFO) (v d : ℚ)
    (hub : v ≤ l.maxValue) (hlb : 2 * l.minValue - l.maxValue ≤ v) :
    l.minValue ≤ (lfoMinCheck l v d).value ∧ (lfoMinCheck l v d).value ≤ l.maxValue := by
  unfold lfoMinCheck
  split_ifs with h <;> constructor <;> simp <;> linarith

/-- The min-bound block keeps the direction in `{+1, -1}`. -/
theorem lfoMinCheck_dir (l : LFO) (v d : ℚ) (hd : d = 1 ∨ d = -1) :
    (lfoMinCheck l v d).direction = 1 ∨ (lfoMinCheck l v d).direction = -1 := by
  unfold lfoMinCheck
  rcases hd with hd | hd <;> split_ifs <;> simp [hd]

/-- One `LFO.update` step keeps the value inside the bounds and the direction
in `{+1, -1}` provided the step's delta `speed · dt` does not exceed the
bounds' range in magnitude. -/
theorem LFO.update_inv (l : LFO) (dt : ℚ)
    (hlo : l.minValue ≤ l.value) (hhi : l.value ≤ l.maxValue)
    (hd : l.direction = 1 ∨ l.direction = -1)
    (hc : |l.speed * dt| ≤ l.maxValue - l.minValue) :
    (l.minValue ≤ (l.update dt).value ∧ (l.update dt).value ≤ l.maxValue) ∧
    ((l.update dt).direction = 1 ∨ (l.update dt).direction = -1) := by
  rw [abs_le] at hc
  have hcd : -(l.maxValue - l.minValue) ≤ l.speed * dt * l.direction ∧
      l.speed * dt * l.direction ≤ l.maxValue - l.minValue := by
    rcases hd with hd | hd <;> rw [hd] <;> constructor <;> nlinarith [hc.1, hc.2]
  simp only [LFO.update]
  split_ifs with h1 h2
  · exact ⟨lfoMinCheck_value l _ _ (by linarith [hcd.1, hcd.2])
      (by linarith [hcd.1, hcd.2]), lfoMinCheck_dir l _ _ hd⟩
  · refine ⟨lfoMinCheck_value l _ _ (by linarith [hcd.1, hcd.2])
      (by linarith [hcd.1, hcd.2]), lfoMinCheck_dir l _ _ ?_⟩
    rcases hd with hd | hd <;> rw [hd] <;> norm_num
  · exact ⟨lfoMinCheck_value l _ _ (by linarith [hcd.1, hcd.2])
      (by linarith [hcd.1, hcd.2]), lfoMinCheck_dir l _ _ hd⟩

/-- Folding `LFO.update` over a list of deltas whose magnitudes stay within
the bounds' range preserves the parameters and keeps the value in range. -/
theorem LFO.foldl_inv : ∀ (dts : List ℚ) (l : LFO),
    (∀ dt ∈ dts, |l.speed * dt| ≤ l.maxValue - l.minValue) →
    l.minValue ≤ l.value → l.value ≤ l.maxValue →
    (l.direction = 1 ∨ l.direction = -1) →
    (dts.foldl LFO.update l).minValue = l.minValue ∧
    (dts.foldl LFO.update l).maxValue = l.maxValue ∧
    l.minValue ≤ (dts.foldl LFO.update l).value ∧
    (dts.foldl LFO.update l).value ≤ l.maxValue
  | [], l, _, hlo, hhi, _ => ⟨rfl, rfl, hlo, hhi⟩
  | dt :: rest, l, hsteps, hlo, hhi, hd => by
    have hstep := LFO.update_inv l dt hlo hhi hd (hsteps dt (by simp))
    have hpar := LFO.update_params l dt
    have hrest : ∀ d ∈ rest,
        |(l.update dt).speed * d| ≤ (l.update dt).maxValue - (l.update dt).minValue := by
      intro d hdmem
      rw [hpar.2.2.1, hpar.2.1, hpar.1]
      exact hsteps d (by simp [hdmem])
    have h1 : (l.update dt).minValue ≤ (l.update dt).value := by
      rw [hpar.1]; exact hstep.1.1
    have h2 : (l.update dt).value ≤ (l.update dt).maxValue := by
      rw [hpar.2.1]; exact hstep.1.2
    have ih := LFO.foldl_inv rest (l.update dt) hrest h1 h2 hstep.2
    refine ⟨?_, ?_, ?_, ?_⟩ <;> simp only [List.foldl_cons]
    · rw [ih.1, hpar.1]
    · rw [ih.2.1, hpar.2.1]
    · rw [← hpar.1]; exact ih.2.2.1
    · rw [← hpar.2.1]; exact ih.2.2.2

/-- C1 counterexample: the claimed invariant fails when a single step's delta
exceeds the bounds' range.  A wrap-mode oscillator with bounds `[0, 1]`,
rate `1`, updated once with `dt = 2 ≥ 0`, ends at value `3/2 > maxValue`. -/
theorem lfo_range_cex :
    ((LFO.new 0 1 1 true).update 2).value = 3 / 2 ∧
    ¬((LFO.new 0 1 1 true).update 2).value ≤ (LFO.new 0 1 1 true).maxValue := by
  norm_num [LFO.update, LFO.new, lfoMinCheck]

/-- C1 (amended): for any bounds `min < max`, any rate and either mode, the
oscillator's value lies within `[min, max]` after every update of a sequence
of `update(dt)` calls, provided each per-step delta `rate·dt` has magnitude
at most the bounds' range `max − min` (a step whose delta exceeds the range
can leave the value out of bounds, per `lfo_range_cex`). -/
theorem lfo_value_in_range (minV maxV speed : ℚ) (loop : Bool) (dts : List ℚ)
    (hmm : minV < maxV)
    (hsteps : ∀ dt ∈ dts, |speed * dt| ≤ maxV - minV) (n : ℕ) :
    minV ≤ ((dts.take n).foldl LFO.update (LFO.new minV maxV speed loop)).value ∧
    ((dts.take n).foldl LFO.update (LFO.new minV maxV speed loop)).value ≤ maxV := by
  have h := LFO.foldl_inv (dts.take n) (LFO.new minV maxV speed loop)
    (fun dt hdt => hsteps dt (List.take_subset n dts hdt))
    (by simp only [LFO.new]; linarith)
    (by simp only [LFO.new]; linarith)
    (by simp [LFO.new])
  exact ⟨h.2.2.1, h.2.2.2⟩
/-- Witness for `lfo_value_in_range` at `min = 0`, `max = 1`, `rate = 1`,
bounce mode, deltas `[1/4, 1/2]`. -/
theorem lfo_value_in_range_witness :
    0 ≤ ((([1/4, 1/2] : List ℚ).take 2).foldl LFO.update (LFO.new 0 1 1 false)).value ∧
    ((([1/4, 1/2] : List ℚ).take 2).foldl LFO.update (LFO.new 0 1 1 false)).value ≤ 1 :=
  lfo_value_in_range 0 1 1 false [1/4, 1/2] (by norm_num)
    (by intro dt hdt; fin_cases hdt <;> rw [abs_le] <;> constructor <;> norm_num) 2

/-- C3: a wrap-mode oscillator whose pre-adjustment value crosses `maxValue`
with overshoot `Δ > 0` ends the update at `minValue + Δ` with its direction
(`+1`) unchanged. -/
theorem lfo_wrap_max (l : LFO) (dt Δ : ℚ)
    (hloop : l.loopRound = true) (hd : l.direction = 1) (hΔ : 0 < Δ)
    (hpre : l.value + l.speed * dt * l.direction = l.maxValue + Δ) :
    (l.update dt).value = l.minValue + Δ ∧ (l.update dt).direction = 1 := by
  simp only [LFO.update, lfoMinCheck, hpre]
  split_ifs with h1 h2 h3
  · exfalso; linarith
  · refine ⟨?_, ?_⟩
    · show l.minValue + (l.maxValue + Δ - l.maxValue) = l.minValue + Δ
      ring
    · show l.direction = 1
      exact hd
  · exfalso; linarith
  · exfalso; linarith

/-- Witness for `lfo_wrap_max`: bounds `[0, 1]`, rate `1`, value `3/4`,
`dt = 1/2`, overshoot `Δ = 1/4`. -/
theorem lfo_wrap_max_witness :
    ((⟨0, 1, 1, true, 3/4, 1⟩ : LFO).update (1/2)).value = 0 + 1/4 ∧
    ((⟨0, 1, 1, true, 3/4, 1⟩ : LFO).update (1/2)).direction = 1 :=
  lfo_wrap_max ⟨0, 1, 1, true, 3/4, 1⟩ (1/2) (1/4) rfl rfl (by norm_num) (by norm_num)

/-- C4 counterexample: in bounce mode an update that crosses `maxValue` with
overshoot `Δ = 3/2` greater than the range does NOT end at `maxValue − Δ`
with flipped direction: bounds `[0, 1]`, value `9/10`, direction `+1`,
`dt = 8/5` crosses max with overshoot `3/2`, but the update ends at value
`1/2` with direction still `+1` (the min-bound block reflects and flips a
second time). -/
theorem lfo_bounce_cex :
    (9/10 : ℚ) + 1 * (8/5) * 1 = 1 + 3/2 ∧
    ¬(((⟨0, 1, 1, false, 9/10, 1⟩ : LFO).update (8/5)).value = 1 - 3/2 ∧
      ((⟨0, 1, 1, false, 9/10, 1⟩ : LFO).update (8/5)).direction = -1) := by
  norm_num [LFO.update, lfoMinCheck]

/-- C4 (amended): in bounce mode, an update crossing `maxValue` with
overshoot `0 < Δ ≤ maxValue − minValue` flips the direction and ends at
`maxValue − Δ`; and in either mode, an update crossing `minValue` with
overshoot `Δ > 0` flips the direction and ends at `minValue + Δ`.  (For a
max-bound overshoot beyond the range, `lfo_bounce_cex` shows the claimed
equations fail.) -/
theorem lfo_bounce_reflect (l : LFO) (dt Δ : ℚ) :
    (l.loopRound = false → 0 < Δ → Δ ≤ l.maxValue - l.minValue →
      l.value + l.speed * dt * l.direction = l.maxValue + Δ →
      (l.update dt).value = l.maxValue - Δ ∧
      (l.update dt).direction = -l.direction) ∧
    (l.minValue ≤ l.maxValue → 0 < Δ →
      l.value + l.speed * dt * l.direction = l.minValue - Δ →
      (l.update dt).value = l.minValue + Δ ∧
      (l.update dt).direction = -l.direction) := by
  constructor
  · intro hloop hΔ hrange hpre
    simp only [LFO.update, lfoMinCheck, hpre]
    split_ifs with h1 h2 h3 h4 h5
    · simp [hloop] at h2
    · simp [hloop] at h2
    · exfalso; linarith
    · refine ⟨?_, ?_⟩
      · show l.maxValue - (l.maxValue + Δ - l.maxValue) = l.maxValue - Δ
        ring
      · show l.direction * (-1) = -l.direction
        ring
    · exfalso; linarith
    · exfalso; linarith
  · intro hmm hΔ hpre
    simp only [LFO.update, lfoMinCheck, hpre]
    split_ifs with h1 h2 h3 h4 h5
    · exfalso; linarith
    · exfalso; linarith
    · exfalso; linarith
    · exfalso; linarith
    · refine ⟨?_, ?_⟩
      · show l.minValue + (l.minValue - (l.minValue - Δ)) = l.minValue + Δ
        ring
      · show l.direction * (-1) = -l.direction
        ring
    · exfalso; linarith

/-- Witness for `lfo_bounce_reflect`: max crossing with bounds `[0, 1]`,
value `3/4`, direction `+1`, `dt = 1/2`, overshoot `Δ = 1/4`; min crossing
with value `1/4`, direction `-1`, `dt = 1/2`, overshoot `Δ = 1/4`. -/
theorem lfo_bounce_reflect_witness :
    (((⟨0, 1, 1, false, 3/4, 1⟩ : LFO).update (1/2)).value = 1 - 1/4 ∧
      ((⟨0, 1, 1, false, 3/4, 1⟩ : LFO).update (1/2)).direction = -(1 : ℚ)) ∧
    (((⟨0, 1, 1, false, 1/4, -1⟩ : LFO).update (1/2)).value = 0 + 1/4 ∧
      ((⟨0, 1, 1, false, 1/4, -1⟩ : LFO).update (1/2)).direction = -(-1 : ℚ)) :=
  ⟨(lfo_bounce_reflect ⟨0, 1, 1, false, 3/4, 1⟩ (1/2) (1/4)).1 rfl (by norm_num)
      (by norm_num) (by norm_num),
   (lfo_bounce_reflect ⟨0, 1, 1, false, 1/4, -1⟩ (1/2) (1/4)).2 (by norm_num)
      (by norm_num) (by norm_num)⟩

/-! ## Macro player theorems -/

/-- C2 counterexample: with the 3-event sequence scheduled at `{0, 1, 2}` and
five ticks of `dt = 1/2`, the first tick fires nothing (the claim says it
fires the event at time 0) and after the fifth tick the player is still
running (the claim says running flips to false on the tick that fires the
last event, i.e. tick 5): the source adds `dt` to the elapsed accumulator
only after the firing loop, so every firing happens one tick later than
claimed. -/
theorem player_trace_cex :
    (runTrace ((MacroState.new [moveA, moveB, moveC]).start) (halfTicks.take 5)).2
        = [[], [moveA], [], [moveB], []] ∧
    (runTrace ((MacroState.new [moveA, moveB, moveC]).start) (halfTicks.take 5)).1.started
        = true := by
  norm_num [runTrace, stepFired, MacroState.update, MacroState.start,
    MacroState.new, scanMoves, collectFired, moveA, moveB, moveC, halfTicks]

/-- C2 (amended): each tick fires the pending events whose scheduled time is
strictly less than the elapsed time accumulated so far, and only then adds
`dt`.  For the 3-event sequence at `{0, 1, 2}` advanced by `dt = 1/2`: the
event at time 0 fires on tick 2, the event at time 1 on tick 4, the event at
time 2 on tick 6; the player is still running after tick 5 and the running
flag flips to false exactly on tick 6, the tick that fires the last event. -/
theorem player_trace :
    (runTrace ((MacroState.new [moveA, moveB, moveC]).start) halfTicks).2
        = [[], [moveA], [], [moveB], [], [moveC]] ∧
    (runTrace ((MacroState.new [moveA, moveB, moveC]).start) (halfTicks.take 5)).1.started
        = true ∧
    (runTrace ((MacroState.new [moveA, moveB, moveC]).start) halfTicks).1.started
        = false := by
  norm_num [runTrace, stepFired, MacroState.update, MacroState.start,
    MacroState.new, scanMoves, collectFired, moveA, moveB, moveC, halfTicks]

/-- Method `Macro.update` leaves the `moves` array unchanged and, when `moves` is
empty, leaves the `started` flag unchanged (the flag is only cleared inside
the firing loop, which never runs on an empty array). -/
theorem update_empty_keeps_started {W : Type} (fire : Move → W → W)
    (s : MacroState) (w : W) (dt : ℚ) (h : s.moves = []) :
    (MacroState.update fire s w dt).1.moves = [] ∧
    (MacroState.update fire s w dt).1.started = s.started := by
  simp [MacroState.update, h, scanMoves]

/-- Folding updates from any empty-moves, started state keeps it started. -/
theorem foldl_empty_keeps_started {W : Type} (fire : Move → W → W) :
    ∀ (dts : List ℚ) (s : MacroState) (w : W), s.moves = [] → s.started = true →
    ((dts.foldl (fun p dt => MacroState.update fire p.1 p.2 dt) (s, w)).1).started = true
  | [], _, _, _, hst => hst
  | dt :: rest, s, w, hmv, hst => by
    have h := update_empty_keeps_started fire s w dt hmv
    simp only [List.foldl_cons]
    exact foldl_empty_keeps_started fire rest _ _ h.1 (h.2.trans hst)

/-- C10: a Macro constructed from an empty event sequence and then started
keeps `started = true` after any number of `update(dt)` calls: the automatic
stop only triggers inside the firing loop, which never executes for an empty
sequence, so an empty macro runs forever. -/
theorem empty_player_runs_forever (W : Type) (fire : Move → W → W) (w : W)
    (dts : List ℚ) :
    ((dts.foldl (fun p dt => MacroState.update fire p.1 p.2 dt)
      ((MacroState.new []).start, w)).1).started = true :=
  foldl_empty_keeps_started fire dts ((MacroState.new []).start) w rfl rfl

/-! ## Macro recorder theorems -/

/-- Delivering one event to a recorder whose start instant is already fixed
at `t0` appends a single move timed `(now − t0) / 1000` and keeps the start
instant. -/
theorem deliver_some_startTime (s : MacroRecording) (t0 : ℚ) (e : ℚ × RecordEvent)
    (h : s.startTime = some t0) :
    (s.deliver e).startTime = some t0 ∧
    (s.deliver e).moves.map Move.time = s.moves.map Move.time ++ [(e.1 - t0) / 1000] := by
  rcases e with ⟨now, ev⟩
  cases ev <;>
    simp [MacroRecording.deliver, MacroRecording.addClick, MacroRecording.addKeyEvent,
      MacroRecording.getTime, h]

/-- Delivering a sequence of events to a recorder whose start instant is
already fixed at `t0` appends moves timed `(now − t0) / 1000` in order. -/
theorem recordAll_some_startTime (t0 : ℚ) :
    ∀ (evs : List (ℚ × RecordEvent)) (s : MacroRecording), s.startTime = some t0 →
    (recordAll s evs).moves.map Move.time
      = s.moves.map Move.time ++ evs.map (fun e => (e.1 - t0) / 1000)
  | [], s, _ => by simp [recordAll]
  | e :: rest, s, h => by
    have hstep := deliver_some_startTime s t0 e h
    have ih := recordAll_some_startTime t0 rest (s.deliver e) hstep.1
    simp only [recordAll, List.foldl_cons] at ih ⊢
    rw [ih, hstep.2]
    simp

/-- C7: for any nonempty sequence of timestamped live-input events (clicks or
key events) delivered to a fresh recorder, the first recorded move has time
exactly `0` and every later move's time is the wall-clock interval since the
first event, divided by 1000 (`Date.now()` milliseconds to seconds); and the
canvas click listener records a click at pixel `(50, 50)` on a `200 × 100`
surface with percentage coordinates `(25, 50)`. -/
theorem recorder_times_and_click_coords :
    (∀ (first : ℚ × RecordEvent) (rest : List (ℚ × RecordEvent)),
      (recordAll MacroRecording.new (first :: rest)).moves.map Move.time
        = 0 :: rest.map (fun e => (e.1 - first.1) / 1000)) ∧
    (∀ (now : ℚ) (s : MacroRecording),
      (recordClick s now 50 50 200 100).moves.map Move.coords
        = s.moves.map Move.coords ++ [some (25, 50)]) := by
  constructor
  · intro first rest
    have hfirst : (MacroRecording.new.deliver first).startTime = some first.1 ∧
        (MacroRecording.new.deliver first).moves.map Move.time = [0] := by
      rcases first with ⟨now, ev⟩
      cases ev <;>
        simp [MacroRecording.deliver, MacroRecording.addClick,
          MacroRecording.addKeyEvent, MacroRecording.getTime, MacroRecording.new]
    have h := recordAll_some_startTime first.1 rest (MacroRecording.new.deliver first)
      hfirst.1
    simp only [recordAll, List.foldl_cons]
    simp only [recordAll] at h
    rw [h, hfirst.2]
    simp
  · intro now s
    cases h : s.startTime <;>
      · simp [recordClick, MacroRecording.addClick, MacroRecording.getTime, h]
        norm_num

/-! ## Flock operation theorems -/

/-- C8: `attractBlobs` sets every blob's bearing to
`atan2(x − blob.x, −(y − blob.y))` and changes none of its other fields; in
particular a blob at `(0, 0)` attracted toward `(0, −10)` ends with bearing
`0`, i.e. `sin(bearing) = 0` and `cos(bearing) = 1`. -/
theorem attract_sets_bearing (blobs : List Blob) (x y : ℝ) (i : ℕ) (b : Blob)
    (h : blobs[i]? = some b) :
    (attractBlobs blobs x y)[i]?
        = some { b with bearing := jsAtan2 (x - b.x) (-(y - b.y)) } ∧
    ∀ c : Blob, c.x = 0 → c.y = 0 →
      (attractBlobs [c] 0 (-10)).map (fun d => (Real.sin d.bearing, Real.cos d.bearing))
        = [(0, 1)] := by
  constructor
  · simp [attractBlobs, h]
  · intro c hx hy
    have hb : jsAtan2 (-c.x) (c.y + 10) = 0 := by
      rw [hx, hy]
      rw [jsAtan2, if_pos (by norm_num : (0:ℝ) < (0:ℝ) + 10)]
      norm_num
    simp [attractBlobs, hb]

/-- Witness for `attract_sets_bearing` at a one-blob collection. -/
theorem attract_sets_bearing_witness :
    (attractBlobs [blobO] 0 (-10))[0]?
        = some { blobO with bearing := jsAtan2 (0 - blobO.x) (-(-10 - blobO.y)) } ∧
    (attractBlobs [blobO] 0 (-10)).map (fun d => (Real.sin d.bearing, Real.cos d.bearing))
        = [(0, 1)] :=
  ⟨(attract_sets_bearing [blobO] 0 (-10) 0 blobO rfl).1,
   (attract_sets_bearing [blobO] 0 (-10) 0 blobO rfl).2 blobO rfl rfl⟩

/-- C9: with the pause key held, dispatching a click twice in immediate
succession leaves every blob at the same final position as a single
`moveBlobs` teleport. -/
theorem double_click_paused_is_teleport (pressed : List ℕ) (blobs : List Blob)
    (x y : ℝ) (h : KEY_NAMES KeyName.pause ∈ pressed) :
    (handleClick pressed (handleClick pressed blobs x y) x y).map (fun b => (b.x, b.y))
      = (moveBlobs blobs x y).map (fun b => (b.x, b.y)) := by
  simp [handleClick, h, moveBlobs, List.map_map]

/-- Witness for `double_click_paused_is_teleport`: pressed keys `[16]`
(the pause key code), one blob, click at `(3, 4)`. -/
theorem double_click_paused_is_teleport_witness :
    (handleClick [16] (handleClick [16] [blobO] 3 4) 3 4).map (fun b => (b.x, b.y))
      = (moveBlobs [blobO] 3 4).map (fun b => (b.x, b.y)) :=
  double_click_paused_is_teleport [16] [blobO] 3 4 (by decide)

/-! ## Colour converter theorems -/

/-- Rounding `jsRound` of a channel in `[0, 1]` scaled by 255 lands in `[0, 255]`. -/
theorem jsRound_mem (x : ℚ) (h0 : 0 ≤ x) (h1 : x ≤ 1) :
    0 ≤ jsRound (x * 255) ∧ jsRound (x * 255) ≤ 255 := by
  unfold jsRound
  constructor
  · exact Int.le_floor.mpr (by push_cast; nlinarith)
  · have : (⌊x * 255 + 1 / 2⌋ : ℤ) < 256 := Int.floor_lt.mpr (by push_cast; nlinarith)
    omega

/-- Each channel selected by the sector switch is one of `v`, `t`, `p`, `q`. -/
theorem hsvSector_mem (i : ℤ) (v t p q : ℚ)
    (hv : 0 ≤ v ∧ v ≤ 1) (ht : 0 ≤ t ∧ t ≤ 1) (hp : 0 ≤ p ∧ p ≤ 1)
    (hq : 0 ≤ q ∧ q ≤ 1) :
    (0 ≤ (hsvSector i v t p q).1 ∧ (hsvSector i v t p q).1 ≤ 1) ∧
    (0 ≤ (hsvSector i v t p q).2.1 ∧ (hsvSector i v t p q).2.1 ≤ 1) ∧
    (0 ≤ (hsvSector i v t p q).2.2 ∧ (hsvSector i v t p q).2.2 ≤ 1) := by
  unfold hsvSector
  split_ifs <;> exact ⟨by tauto, by tauto, by tauto⟩

/-- A clamp to `[0, hi]` with `0 ≤ hi` is idempotent. -/
theorem clamp_idem (hi x : ℚ) (hhi : 0 ≤ hi) :
    max 0 (min hi (max 0 (min hi x))) = max 0 (min hi x) := by
  have h1 : max 0 (min hi x) ≤ hi := max_le hhi (min_le_left _ _)
  rw [min_eq_right h1, max_eq_right (le_max_left _ _)]

/-- C5: for every input `(h, s, v)` — out-of-range inputs included, which are
silently clamped to `[0,360] × [0,100] × [0,100]` rather than rejected —
every output channel of the colour converter is an integer in `[0, 255]`;
and `h = 0, 120, 240` at `s = v = 100` produce exactly `(255,0,0)`,
`(0,255,0)` and `(0,0,255)`. -/
theorem hsv_channels_in_range :
    (∀ h s v : ℚ,
      (0 ≤ (hsvToRgb h s v).1 ∧ (hsvToRgb h s v).1 ≤ 255) ∧
      (0 ≤ (hsvToRgb h s v).2.1 ∧ (hsvToRgb h s v).2.1 ≤ 255) ∧
      (0 ≤ (hsvToRgb h s v).2.2 ∧ (hsvToRgb h s v).2.2 ≤ 255)) ∧
    (∀ h s v : ℚ, hsvToRgb h s v
        = hsvToRgb (max 0 (min 360 h)) (max 0 (min 100 s)) (max 0 (min 100 v))) ∧
    hsvToRgb 0 100 100 = (255, 0, 0) ∧
    hsvToRgb 120 100 100 = (0, 255, 0) ∧
    hsvToRgb 240 100 100 = (0, 0, 255) := by
  refine ⟨?_, ?_, ?_, ?_, ?_⟩
  · intro h s v
    have hs0 : (0:ℚ) ≤ max 0 (min 100 s) := le_max_left _ _
    have hs1 : max 0 (min 100 s) ≤ 100 := max_le (by norm_num) (min_le_left _ _)
    have hv0 : (0:ℚ) ≤ max 0 (min 100 v) := le_max_left _ _
    have hv1 : max 0 (min 100 v) ≤ 100 := max_le (by norm_num) (min_le_left _ _)
    have hv20 : (0:ℚ) ≤ max 0 (min 100 v) / 100 := by positivity
    have hv21 : max 0 (min 100 v) / 100 ≤ 1 := by
      rw [div_le_one (by norm_num)]; exact hv1
    have hs20 : (0:ℚ) ≤ max 0 (min 100 s) / 100 := by positivity
    have hs21 : max 0 (min 100 s) / 100 ≤ 1 := by
      rw [div_le_one (by norm_num)]; exact hs1
    simp only [hsvToRgb]
    split_ifs with hz
    · exact ⟨jsRound_mem _ hv20 hv21, jsRound_mem _ hv20 hv21,
        jsRound_mem _ hv20 hv21⟩
    · set h2 : ℚ := max 0 (min 360 h) / 60 with hh2
      set f : ℚ := h2 - (⌊h2⌋ : ℚ) with hf
      have hf0 : 0 ≤ f := by
        rw [hf]; have := Int.floor_le h2; linarith
      have hf1 : f ≤ 1 := by
        rw [hf]; have := Int.lt_floor_add_one h2; push_cast at this ⊢; linarith
      set s2 : ℚ := max 0 (min 100 s) / 100 with hs2
      set v2 : ℚ := max 0 (min 100 v) / 100 with hv2
      have hp : 0 ≤ v2 * (1 - s2) ∧ v2 * (1 - s2) ≤ 1 :=
        ⟨by nlinarith, by nlinarith⟩
      have hq : 0 ≤ v2 * (1 - s2 * f) ∧ v2 * (1 - s2 * f) ≤ 1 :=
        ⟨by nlinarith, by nlinarith⟩
      have ht : 0 ≤ v2 * (1 - s2 * (1 - f)) ∧ v2 * (1 - s2 * (1 - f)) ≤ 1 :=
        ⟨by nlinarith, by nlinarith⟩
      have hsec := hsvSector_mem ⌊h2⌋ v2 (v2 * (1 - s2 * (1 - f)))
        (v2 * (1 - s2)) (v2 * (1 - s2 * f)) ⟨hv20, hv21⟩ ht hp hq
      exact ⟨jsRound_mem _ hsec.1.1 hsec.1.2,
        jsRound_mem _ hsec.2.1.1 hsec.2.1.2,
        jsRound_mem _ hsec.2.2.1 hsec.2.2.2⟩
  · intro h s v
    simp only [hsvToRgb]
    rw [clamp_idem 360 h (by norm_num), clamp_idem 100 s (by norm_num),
      clamp_idem 100 v (by norm_num)]
  · norm_num [hsvToRgb, hsvSector, jsRound]
  · norm_num [hsvToRgb, hsvSector, jsRound]
  · norm_num [hsvToRgb, hsvSector, jsRound]

/-- C6: whenever the clamped saturation is `0`, the colour converter takes
the achromatic short-circuit and returns the normalized value channel,
rounded, replicated three times. -/
theorem hsv_achromatic (h s v : ℚ) (hs : max 0 (min 100 s) = 0) :
    hsvToRgb h s v =
      (jsRound (max 0 (min 100 v) / 100 * 255),
       jsRound (max 0 (min 100 v) / 100 * 255),
       jsRound (max 0 (min 100 v) / 100 * 255)) := by
  simp only [hsvToRgb, hs]
  norm_num

/-- Witness for `hsv_achromatic` at `(h, s, v) = (50, 0, 40)`. -/
theorem hsv_achromatic_witness : hsvToRgb 50 0 40 = (102, 102, 102) := by
  have h := hsv_achromatic 50 0 40 (by norm_num)
  rw [h]
  norm_num [jsRound]
